import Mathlib

/-!
Verification of the pynav manifold-state and model library
(`pynav/lib/states.py`, `pynav/lib/models.py`).

The Python code is shallowly embedded: real scalars become `ℚ` (all the
claims under study are exact algebraic identities, not floating-point
facts), 1-D numpy arrays become `List ℚ`, 2-D numpy arrays become `Mat`
(explicit row/column counts plus an entry function), and fallible Python
code (code that can raise) returns `Except PyErr`.  The Lie-group
primitives (`Exp`, `Log`, `inverse`, composition, `adjoint`,
`left_jacobian`, the generator map "odot") and the Euclidean norm are,
per the specification, supplied by an external backend; they are
modelled by an abstract `Backend` structure whose algebraic laws
(`Backend.Lawful`) are exactly the exponential-map/group axioms the
specification appeals to.  In-place mutation of a state (Python's
`self.value = ...`) is modelled by explicit state passing: the embedded
operation returns the updated state.
-/

set_option autoImplicit false
set_option linter.unusedVariables false

namespace PyNav

/-- The Python exception classes that the embedded code can raise. -/
inductive PyErr where
  | valueError
  | typeError
  | notImplementedError
  | indexError
  | nameError
deriving DecidableEq

/-! ### Dense matrices (external linear-algebra backend)

A 2-D numpy array: explicit shape plus an entry function.  Entries
outside the shape are junk; matrix equality is `Mat.Eq`, which compares
shapes and all in-range entries. -/

structure Mat where
  rows : Nat
  cols : Nat
  entry : Nat → Nat → ℚ

/-- Shape-and-entries equality of matrices (entries outside the shape are
irrelevant junk). -/
def Mat.Eq (A C : Mat) : Prop :=
  A.rows = C.rows ∧ A.cols = C.cols ∧
    ∀ i, i < A.rows → ∀ j, j < A.cols → A.entry i j = C.entry i j

instance (A C : Mat) : Decidable (Mat.Eq A C) := by
  unfold Mat.Eq; infer_instance

/-- `np.zeros((m, n))`. -/
def Mat.zeros (m n : Nat) : Mat := ⟨m, n, fun _ _ => 0⟩

/-- `np.identity(n)`. -/
def Mat.identity (n : Nat) : Mat := ⟨n, n, fun i j => if i = j then 1 else 0⟩

/-- Matrix product `A @ C` (the contraction length is taken from `A.cols`;
the claims never multiply shape-incompatible matrices). -/
def Mat.mul (A C : Mat) : Mat :=
  ⟨A.rows, C.cols, fun i j =>
    ((List.range A.cols).map (fun k => A.entry i k * C.entry k j)).sum⟩

/-- `A.T`. -/
def Mat.transpose (A : Mat) : Mat := ⟨A.cols, A.rows, fun i j => A.entry j i⟩

/-- Scalar multiple `c * A`. -/
def Mat.smul (c : ℚ) (A : Mat) : Mat := ⟨A.rows, A.cols, fun i j => c * A.entry i j⟩

/-- Entrywise sum `A + C` (used only at matching shapes). -/
def Mat.add (A C : Mat) : Mat := ⟨A.rows, A.cols, fun i j => A.entry i j + C.entry i j⟩

/-- The numpy slice assignment `jac[:, a:b] = block`: entries in columns
`[a, b)` are replaced by the corresponding `block` entries. -/
def Mat.setSlice (jac : Mat) (a b : Nat) (block : Mat) : Mat :=
  ⟨jac.rows, jac.cols, fun i j =>
    if a ≤ j ∧ j < b then block.entry i (j - a) else jac.entry i j⟩

/-! ### 1-D numpy arithmetic -/

/-- `a + b` on 1-D numpy arrays: elementwise at equal lengths, numpy
length-1 broadcasting otherwise, and a shape `ValueError` when the
shapes are incompatible. -/
def npAdd1d (a b : List ℚ) : Except PyErr (List ℚ) :=
  if a.length = b.length then .ok (List.zipWith (fun x y => x + y) a b)
  else if a.length = 1 then .ok (b.map (fun y => a.headD 0 + y))
  else if b.length = 1 then .ok (a.map (fun x => x + b.headD 0))
  else .error .valueError

/-- `a - b` on 1-D numpy arrays, same shape rules as `npAdd1d`. -/
def npSub1d (a b : List ℚ) : Except PyErr (List ℚ) :=
  if a.length = b.length then .ok (List.zipWith (fun x y => x - y) a b)
  else if a.length = 1 then .ok (b.map (fun y => a.headD 0 - y))
  else if b.length = 1 then .ok (a.map (fun x => x - b.headD 0))
  else .error .valueError

/-- The Python/numpy slice read `dx[a:b]` on a 1-D array (slicing clamps
silently at the ends, it never raises). -/
def listSlice (l : List ℚ) (a b : Nat) : List ℚ := (l.drop a).take (b - a)

/-! ### The external Lie-group backend

The specification places group composition, inverse, `Exp`/`Log`, the
adjoint, the left Jacobian, the generator ("odot") operators, geometric
block accessors and the Euclidean norm in an external math backend.
`Backend` bundles those primitives for one group (tangent vectors are
1-D arrays, `Log`'s output being one tangent block). -/

structure Backend where
  G : Type
  one : G
  mul : G → G → G
  inv : G → G
  Exp : List ℚ → G
  Log : G → List ℚ
  dof : Nat
  adjointMat : G → Mat
  leftJacobianMat : List ℚ → Mat
  norm : List ℚ → ℚ
  position : G → List ℚ
  attitudeMat : G → Mat
  odot2 : List ℚ → Mat
  odot3 : List ℚ → Mat
  jacobianFromBlocks : Mat → Mat → Mat

/-- The group/exponential-map axioms the specification appeals to
("exact for exponential-map-based retractions, given the group axioms"). -/
structure Backend.Lawful (B : Backend) : Prop where
  mul_assoc : ∀ a b c, B.mul (B.mul a b) c = B.mul a (B.mul b c)
  one_mul : ∀ a, B.mul B.one a = a
  mul_one : ∀ a, B.mul a B.one = a
  inv_mul : ∀ a, B.mul (B.inv a) a = B.one
  mul_inv : ∀ a, B.mul a (B.inv a) = B.one
  exp_log : ∀ g, B.Exp (B.Log g) = g
  log_exp : ∀ v, v.length = B.dof → B.Log (B.Exp v) = v
  log_one : B.Log B.one = List.replicate B.dof 0

/-! ### State variants (`pynav/lib/states.py`) -/

/-- `VectorState`: a flat vector value; `dof` is the vector length
(`__init__` sets `dof = value.size`). -/
structure VectorState where
  value : List ℚ
  stamp : Option ℚ
  state_id : Option ℤ

/-- `VectorState.plus`: `self.value = self.value.flatten() + dx.flatten()`. -/
def VectorState.plus (s : VectorState) (dx : List ℚ) : Except PyErr VectorState := do
  let v ← npAdd1d s.value dx
  pure { s with value := v }

/-- `VectorState.minus`: `self.value - x.value`. -/
def VectorState.minus (s x : VectorState) : Except PyErr (List ℚ) :=
  npSub1d s.value x.value

/-- `MatrixLieGroupState`: a group element plus the perturbation
`direction` string (the constructor stores the string unchecked). -/
structure MatrixLieGroupState (B : Backend) where
  value : B.G
  direction : String
  stamp : Option ℚ
  state_id : Option ℤ

/-- `MatrixLieGroupState.plus`: right gives `value @ Exp(dx)`, left gives
`Exp(dx) @ value`, any other direction string raises `ValueError`. -/
def MatrixLieGroupState.plus {B : Backend} (s : MatrixLieGroupState B)
    (dx : List ℚ) : Except PyErr (MatrixLieGroupState B) :=
  if s.direction = "right" then .ok { s with value := B.mul s.value (B.Exp dx) }
  else if s.direction = "left" then .ok { s with value := B.mul (B.Exp dx) s.value }
  else .error .valueError

/-- `MatrixLieGroupState.minus`: right gives `Log(inverse(x.value) @ value)`,
left gives `Log(value @ inverse(x.value))`, otherwise `ValueError`. -/
def MatrixLieGroupState.minus {B : Backend} (s x : MatrixLieGroupState B) :
    Except PyErr (List ℚ) :=
  if s.direction = "right" then .ok (B.Log (B.mul (B.inv x.value) s.value))
  else if s.direction = "left" then .ok (B.Log (B.mul s.value (B.inv x.value)))
  else .error .valueError

/-- A sub-state of a composite: one of the two concrete state families. -/
inductive PyState (B : Backend) where
  | vec (s : VectorState)
  | lie (s : MatrixLieGroupState B)

/-- `state.dof`: vector length for a `VectorState`, the group's `dof` for a
`MatrixLieGroupState` (both fixed at construction). -/
def PyState.dof {B : Backend} : PyState B → Nat
  | .vec s => s.value.length
  | .lie _ => B.dof

/-- `state.state_id`. -/
def PyState.state_id {B : Backend} : PyState B → Option ℤ
  | .vec s => s.state_id
  | .lie s => s.state_id

/-- `state.stamp`. -/
def PyState.stamp {B : Backend} : PyState B → Option ℚ
  | .vec s => s.stamp
  | .lie s => s.stamp

/-- `state.stamp = t` (used by `set_stamp_for_all`). -/
def PyState.setStamp {B : Backend} (t : ℚ) : PyState B → PyState B
  | .vec s => .vec { s with stamp := some t }
  | .lie s => .lie { s with stamp := some t }

/-- `state.plus(dx)`, dispatched on the concrete variant. -/
def PyState.plus {B : Backend} : PyState B → List ℚ → Except PyErr (PyState B)
  | .vec s, dx => (s.plus dx).map PyState.vec
  | .lie s, dx => (s.plus dx).map PyState.lie

/-- `self.minus(x)` on sub-states.  The composite code only ever pairs a
sub-state with one of the same variant; the duck-typed cross-variant
numpy arithmetic is modelled as a `TypeError` and is unused. -/
def PyState.minus {B : Backend} : PyState B → PyState B → Except PyErr (List ℚ)
  | .vec s, .vec x => s.minus x
  | .lie s, .lie x => s.minus x
  | _, _ => .error .typeError

/-! ### `CompositeState` -/

/-- The `__init__` slice loop: `slice(counter, counter + state.dof)` with
`counter` accumulating the dofs, here with an explicit start counter. -/
def computeSlicesAux : Nat → List Nat → List (Nat × Nat)
  | _, [] => []
  | counter, d :: ds => (counter, counter + d) :: computeSlicesAux (counter + d) ds

/-- The slice table computed at construction from the sub-state dofs. -/
def computeSlices (dofs : List Nat) : List (Nat × Nat) := computeSlicesAux 0 dofs

/-- `CompositeState`: an ordered list of sub-states plus one aggregate
stamp and identifier. -/
structure CompositeState (B : Backend) where
  value : List (PyState B)
  stamp : Option ℚ
  state_id : Option ℤ

/-- The `_slices` table.  It is computed once in `__init__` from the
sub-state dofs, and since every sub-state's `dof` is fixed at its own
construction the stored table always equals this recomputation. -/
def CompositeState.slices {B : Backend} (c : CompositeState B) : List (Nat × Nat) :=
  computeSlices (c.value.map PyState.dof)

/-- `CompositeState.dof`: `sum([x.dof for x in self.value])`. -/
def CompositeState.dof {B : Backend} (c : CompositeState B) : Nat :=
  (c.value.map PyState.dof).sum

/-- Python's `list.index`: the position of the first element equal to the
key, raising `ValueError` when the key is absent. -/
def pyListIndex : List (Option ℤ) → Option ℤ → Except PyErr Nat
  | [], _ => .error .valueError
  | x :: xs, sid => if x = sid then .ok 0 else (pyListIndex xs sid).map (· + 1)

/-- `get_index_by_id`: `[x.state_id for x in self.value].index(state_id)`.
A pure lookup: it modifies nothing. -/
def CompositeState.get_index_by_id {B : Backend} (c : CompositeState B)
    (sid : Option ℤ) : Except PyErr Nat :=
  pyListIndex (c.value.map PyState.state_id) sid

/-- Python sequence indexing `l[idx]`: the element when `idx` is in
range, `IndexError` otherwise. -/
def getOr {α : Type} (l : List α) (i : Nat) : Except PyErr α :=
  match l.get? i with
  | some a => .ok a
  | none => .error .indexError

/-- `get_slice_by_id`: `self._slices[idx]` after resolving the index. -/
def CompositeState.get_slice_by_id {B : Backend} (c : CompositeState B)
    (sid : Option ℤ) : Except PyErr (Nat × Nat) := do
  let idx ← c.get_index_by_id sid
  getOr c.slices idx

/-- `get_state_by_id`: `self.value[idx]` after resolving the index. -/
def CompositeState.get_state_by_id {B : Backend} (c : CompositeState B)
    (sid : Option ℤ) : Except PyErr (PyState B) := do
  let idx ← c.get_index_by_id sid
  getOr c.value idx

/-- Python `n[i]` where `n` is an `int`: an `int` object is not
subscriptable, so this raises `TypeError` for every index. -/
def pyIntSubscript (n i : Nat) : Except PyErr Nat := .error .typeError

/-- Python `t[i]` where `t` is a `float` or `None` (a sub-state's
`stamp`): neither object is subscriptable, so this raises `TypeError`
for every index. -/
def pyStampSubscript (t : Option ℚ) (i : Nat) : Except PyErr ℚ := .error .typeError

/-- `get_dof_by_id`: `self.value[idx].dof[idx]` — the resolved sub-state's
scalar `dof` is itself subscripted with the index. -/
def CompositeState.get_dof_by_id {B : Backend} (c : CompositeState B)
    (sid : Option ℤ) : Except PyErr Nat := do
  let idx ← c.get_index_by_id sid
  let s ← getOr c.value idx
  pyIntSubscript s.dof idx

/-- `get_stamp_by_id`: `self.value[idx].stamp[idx]` — the resolved
sub-state's scalar `stamp` is itself subscripted with the index. -/
def CompositeState.get_stamp_by_id {B : Backend} (c : CompositeState B)
    (sid : Option ℤ) : Except PyErr ℚ := do
  let idx ← c.get_index_by_id sid
  let s ← getOr c.value idx
  pyStampSubscript s.stamp idx

/-- `set_stamp_for_all`. -/
def CompositeState.set_stamp_for_all {B : Backend} (c : CompositeState B)
    (t : ℚ) : CompositeState B :=
  { c with value := c.value.map (PyState.setStamp t) }

/-- The loop of `CompositeState.plus`: `for i, s in enumerate(self._slices):
self.value[i].plus(dx[s])`.  Indexing `self.value[i]` past the end would
raise `IndexError` (unreachable, the tables are parallel). -/
def plusLoop {B : Backend} :
    List (PyState B) → List (Nat × Nat) → List ℚ → Except PyErr (List (PyState B))
  | vals, [], _ => .ok vals
  | v :: vs, s :: ss, dx => do
      let v2 ← v.plus (listSlice dx s.1 s.2)
      let rest ← plusLoop vs ss dx
      pure (v2 :: rest)
  | [], _ :: _, _ => .error .indexError

/-- `CompositeState.plus(dx, new_stamp)`: split `dx` by the slice table,
delegate each chunk to the sub-state's `plus` in list order, then apply
the optional new stamp to every sub-state. -/
def CompositeState.plus {B : Backend} (c : CompositeState B) (dx : List ℚ)
    (new_stamp : Option ℚ) : Except PyErr (CompositeState B) := do
  let vals ← plusLoop c.value c.slices dx
  match new_stamp with
  | some t => pure ({ c with value := vals }.set_stamp_for_all t)
  | none => pure { c with value := vals }

/-- The loop of `CompositeState.minus`: `for i, v in enumerate(x.value):
dx.append(self.value[i].minus(x.value[i]))`. -/
def minusLoop {B : Backend} :
    List (PyState B) → List (PyState B) → Except PyErr (List (List ℚ))
  | _, [] => .ok []
  | [], _ :: _ => .error .indexError
  | sv :: svs, xv :: xvs => do
      let d ← sv.minus xv
      let rest ← minusLoop svs xvs
      pure (d :: rest)

/-- `np.vstack(dx)` on the collected tangent blocks: it raises
`ValueError` on an empty list ("need at least one array to
concatenate") and otherwise stacks the blocks vertically — on tangent
blocks, their concatenation. -/
def npVstack (blocks : List (List ℚ)) : Except PyErr (List ℚ) :=
  match blocks with
  | [] => .error .valueError
  | _ => .ok blocks.flatten

/-- `CompositeState.minus(x)`: pairwise sub-state `minus` in list order,
then `np.vstack` of the collected blocks. -/
def CompositeState.minus {B : Backend} (c x : CompositeState B) :
    Except PyErr (List ℚ) := do
  let ds ← minusLoop c.value x.value
  npVstack ds

/-- In Python 3, `dict.values()` returns a `dict_values` view object,
which does not support subscripting: `block_dict.values()[0]` raises
`TypeError` for every dictionary. -/
def dictValuesGetItem (vals : List Mat) (i : Nat) : Except PyErr Mat :=
  .error .typeError

/-- The scatter loop of `jacobian_from_blocks`:
`for state_id, block in block_dict.items(): jac[:, self.get_slice_by_id(state_id)] = block`.
The numpy slice assignment checks the block's shape against the target
(length-1 broadcasting is not exercised by any claim and is modelled as
the same `ValueError`). -/
def CompositeState.scatterBlocks {B : Backend} (c : CompositeState B) :
    Mat → List (Option ℤ × Mat) → Except PyErr Mat
  | jac, [] => .ok jac
  | jac, (sid, block) :: rest => do
      let slc ← c.get_slice_by_id sid
      if block.rows = jac.rows ∧ block.cols = slc.2 - slc.1 then
        c.scatterBlocks (jac.setSlice slc.1 slc.2 block) rest
      else .error .valueError

/-- `CompositeState.jacobian_from_blocks(block_dict)` as written:
`block = block_dict.values()[0]; m = block.shape[0];
jac = np.zeros((m, self.dof))`, then the scatter loop.  A dictionary is
modelled as its insertion-ordered key/value list. -/
def CompositeState.jacobian_from_blocks {B : Backend} (c : CompositeState B)
    (block_dict : List (Option ℤ × Mat)) : Except PyErr Mat := do
  let block ← dictValuesGetItem (block_dict.map Prod.snd) 0
  let m := block.rows
  c.scatterBlocks (Mat.zeros m c.dof) block_dict

/-! ### Process and measurement models (`pynav/lib/models.py`) -/

/-- `SingleIntegrator`: holds its process-noise matrix `Q`;
`self.dim = Q.shape[0]`. -/
structure SingleIntegrator where
  Q : Mat

/-- The `SingleIntegrator` constructor: raises `ValueError` unless `Q` is
square. -/
def SingleIntegrator.make (Q : Mat) : Except PyErr SingleIntegrator :=
  if Q.rows = Q.cols then .ok ⟨Q⟩ else .error .valueError

/-- `self.dim`, set by `__init__` to `Q.shape[0]`. -/
def SingleIntegrator.dim (m : SingleIntegrator) : Nat := m.Q.rows

/-- `SingleIntegrator.evaluate`: `x.value = x.value + dt * u.value`,
returning the mutated state. -/
def SingleIntegrator.evaluate (m : SingleIntegrator) (x : VectorState)
    (u : List ℚ) (dt : ℚ) : Except PyErr VectorState := do
  let v ← npAdd1d x.value (u.map (fun a => dt * a))
  pure { x with value := v }

/-- `SingleIntegrator.jacobian`: `np.identity(self.dim)`. -/
def SingleIntegrator.jacobian (m : SingleIntegrator) (x : VectorState)
    (u : List ℚ) (dt : ℚ) : Mat := Mat.identity m.dim

/-- `SingleIntegrator.covariance`: `dt**2 * self._Q`. -/
def SingleIntegrator.covariance (m : SingleIntegrator) (x : VectorState)
    (u : List ℚ) (dt : ℚ) : Mat := Mat.smul (dt ^ 2) m.Q

/-- `BodyFrameVelocity`: holds its process-noise matrix `Q`. -/
structure BodyFrameVelocity where
  Q : Mat

/-- `BodyFrameVelocity.evaluate`:
`x.value = x.value @ x.group.Exp(u.value * dt)`, returning the mutated
state.  It never consults `x.direction`. -/
def BodyFrameVelocity.evaluate (m : BodyFrameVelocity) (B : Backend)
    (x : MatrixLieGroupState B) (u : List ℚ) (dt : ℚ) : MatrixLieGroupState B :=
  { x with value := B.mul x.value (B.Exp (u.map (fun a => a * dt))) }

/-- `BodyFrameVelocity.jacobian`: for direction right,
`adjoint(Exp(-u*dt))`; any other direction raises
`NotImplementedError`. -/
def BodyFrameVelocity.jacobian (m : BodyFrameVelocity) (B : Backend)
    (x : MatrixLieGroupState B) (u : List ℚ) (dt : ℚ) : Except PyErr Mat :=
  if x.direction = "right" then
    .ok (B.adjointMat (B.Exp (u.map (fun a => -a * dt))))
  else .error .notImplementedError

/-- `BodyFrameVelocity.covariance`: for direction right,
`L @ Q @ L.T` with `L = dt * left_jacobian(-u*dt)`; any other direction
raises `NotImplementedError`. -/
def BodyFrameVelocity.covariance (m : BodyFrameVelocity) (B : Backend)
    (x : MatrixLieGroupState B) (u : List ℚ) (dt : ℚ) : Except PyErr Mat :=
  if x.direction = "right" then
    let L := Mat.smul dt (B.leftJacobianMat (u.map (fun a => -a * dt)))
    .ok ((L.mul m.Q).mul L.transpose)
  else .error .notImplementedError

/-- `round(n / 2)` as Python computes it (`/` is float division and
`round` rounds halves to even). -/
def pyRoundHalf (n : Nat) : Nat :=
  if n % 2 = 0 then n / 2
  else if (n / 2) % 2 = 0 then n / 2 else n / 2 + 1

/-- `u.value.reshape((2, round(u.value.size / 2)))` in
`RelativeBodyFrameVelocity`: splits the input into the two stacked
twists `u[0]`, `u[1]`, raising `ValueError` when the sizes do not
multiply out. -/
def reshapeTwoRows (u : List ℚ) : Except PyErr (List ℚ × List ℚ) :=
  let r := pyRoundHalf u.length
  if 2 * r = u.length then .ok (u.take r, u.drop r) else .error .valueError

/-- `RelativeBodyFrameVelocity`: holds the two noise matrices. -/
structure RelativeBodyFrameVelocity where
  Q1 : Mat
  Q2 : Mat

/-- `RelativeBodyFrameVelocity.jacobian`: reshapes the input first, then
for direction right returns `adjoint(Exp(-u[1]*dt))`; any other
direction raises `NotImplementedError`. -/
def RelativeBodyFrameVelocity.jacobian (m : RelativeBodyFrameVelocity)
    (B : Backend) (x : MatrixLieGroupState B) (u : List ℚ) (dt : ℚ) :
    Except PyErr Mat := do
  let p ← reshapeTwoRows u
  if x.direction = "right" then
    pure (B.adjointMat (B.Exp (p.2.map (fun a => -a * dt))))
  else .error .notImplementedError

/-- `RelativeBodyFrameVelocity.covariance`: reshapes the input first,
then for direction right combines the two noise sources as
`L1 @ Q1 @ L1.T + L2 @ Q2 @ L2.T`; any other direction raises
`NotImplementedError`. -/
def RelativeBodyFrameVelocity.covariance (m : RelativeBodyFrameVelocity)
    (B : Backend) (x : MatrixLieGroupState B) (u : List ℚ) (dt : ℚ) :
    Except PyErr Mat := do
  let p ← reshapeTwoRows u
  if x.direction = "right" then
    let L1 := Mat.smul dt
      ((B.adjointMat (B.mul x.value (B.Exp (p.2.map (fun a => a * dt))))).mul
        (B.leftJacobianMat (p.1.map (fun a => dt * a))))
    let L2 := Mat.smul dt (B.leftJacobianMat (p.2.map (fun a => -(dt * a))))
    pure (((L1.mul m.Q1).mul L1.transpose).add ((L2.mul m.Q2).mul L2.transpose))
  else .error .notImplementedError

/-- Matrix-vector product `A @ v` on a column vector. -/
def matVec (A : Mat) (v : List ℚ) : List ℚ :=
  (List.range A.rows).map
    (fun i => ((List.range A.cols).map (fun k => A.entry i k * v.getD k 0)).sum)

/-- Elementwise vector sum (used at matching lengths). -/
def vecAdd (a b : List ℚ) : List ℚ := List.zipWith (fun x y => x + y) a b

/-- Elementwise vector difference (used at matching lengths). -/
def vecSub (a b : List ℚ) : List ℚ := List.zipWith (fun x y => x - y) a b

/-- A column vector viewed, transposed, as the 1-by-n matrix `rho.T`. -/
def rowMat (v : List ℚ) : Mat := ⟨1, v.length, fun _ j => v.getD j 0⟩

/-- `RangePoseToAnchor`: anchor position, body-frame tag position, and
the scalar noise `R`. -/
structure RangePoseToAnchor where
  r_cw_a : List ℚ
  r_tz_b : List ℚ
  R : ℚ

/-- `RangePoseToAnchor.jacobian`: for direction right it forms the
line-of-sight unit vector to the tag and assembles the attitude and
position blocks through the state's `jacobian_from_blocks` (the
rotation-group dispatch on the attitude shape leaves `att_group` unbound
for any other shape, a `NameError`); any other direction raises
`NotImplementedError`. -/
def RangePoseToAnchor.jacobian (m : RangePoseToAnchor) (B : Backend)
    (x : MatrixLieGroupState B) : Except PyErr Mat :=
  if x.direction = "right" then do
    let r_zw_a := B.position x.value
    let C_ab := B.attitudeMat x.value
    let attOdot ←
      if C_ab.rows = 2 ∧ C_ab.cols = 2 then pure B.odot2
      else if C_ab.rows = 3 ∧ C_ab.cols = 3 then pure B.odot3
      else .error .nameError
    let r_tw_a := vecAdd (matVec C_ab m.r_tz_b) r_zw_a
    let r_tc_a := vecSub r_tw_a m.r_cw_a
    let rho := r_tc_a.map (fun a => a / B.norm r_tc_a)
    let jac_attitude := ((rowMat rho).mul C_ab).mul (attOdot m.r_tz_b)
    let jac_position := (rowMat rho).mul C_ab
    pure (B.jacobianFromBlocks jac_attitude jac_position)
  else .error .notImplementedError

/-- `CompositeMeasurementModel.evaluate`: delegates to the wrapped model
(here the abstract function `weval`) on the addressed sub-state. -/
def CompositeMeasurementModel.evaluate {B : Backend}
    (weval : PyState B → List ℚ) (sid : Option ℤ) (x : CompositeState B) :
    Except PyErr (List ℚ) :=
  (x.get_state_by_id sid).map weval

/-- `CompositeMeasurementModel.jacobian`: the wrapped model's native
Jacobian (the abstract function `wjac`) on the addressed sub-state,
scattered into the addressed slice of `np.zeros((jac_sub.shape[0], x.dof))`.
The numpy slice assignment checks the block's shape against the target
slice. -/
def CompositeMeasurementModel.jacobian {B : Backend}
    (wjac : PyState B → Mat) (sid : Option ℤ) (x : CompositeState B) :
    Except PyErr Mat := do
  let x_sub ← x.get_state_by_id sid
  let jac_sub := wjac x_sub
  let jac := Mat.zeros jac_sub.rows x.dof
  let slc ← x.get_slice_by_id sid
  if jac_sub.rows = jac.rows ∧ jac_sub.cols = slc.2 - slc.1 then
    pure (jac.setSlice slc.1 slc.2 jac_sub)
  else .error .valueError

/-- `CompositeMeasurementModel.covariance`: delegates to the wrapped
model (the abstract function `wcov`) on the addressed sub-state. -/
def CompositeMeasurementModel.covariance {B : Backend}
    (wcov : PyState B → Mat) (sid : Option ℤ) (x : CompositeState B) :
    Except PyErr Mat :=
  (x.get_state_by_id sid).map wcov

/-! ### Well-formedness and a concrete backend instance -/

/-- The data-model invariant on a sub-state's perturbation convention:
`direction ∈ {left, right}` (the specification fixes this at
construction; other strings raise `ValueError` inside `plus`/`minus`). -/
def dirOK {B : Backend} : PyState B → Prop
  | .vec _ => True
  | .lie s => s.direction = "right" ∨ s.direction = "left"

/-- A concrete one-degree-of-freedom backend on the additive rationals
(`Exp`/`Log` the evident bijection with one-element tangent lists),
used to instantiate the abstract theorems on concrete inputs. -/
def QBackend : Backend where
  G := ℚ
  one := 0
  mul := fun a b => a + b
  inv := fun a => -a
  Exp := fun v => v.headD 0
  Log := fun g => [g]
  dof := 1
  adjointMat := fun _ => Mat.identity 1
  leftJacobianMat := fun _ => Mat.identity 1
  norm := fun v => (v.map (fun a => a * a)).sum
  position := fun g => [g]
  attitudeMat := fun _ => Mat.identity 3
  odot2 := fun _ => Mat.zeros 2 2
  odot3 := fun _ => Mat.zeros 3 3
  jacobianFromBlocks := fun a _ => a

/-- A three-sub-state heterogeneous composite over `QBackend` with
identifiers `0`, `1`, `2` (vector, Lie-group, vector). -/
def sampleComposite : CompositeState QBackend :=
  ⟨[PyState.vec ⟨[1, 2], none, some 0⟩,
    PyState.lie ⟨(4 : ℚ), "right", none, some 1⟩,
    PyState.vec ⟨[6, 7], none, some 2⟩], none, none⟩

/-! ### General lemmas about the embedded operations -/

theorem except_bind_ok {ε α β : Type} (a : α) (f : α → Except ε β) :
    (Except.ok a >>= f : Except ε β) = f a := rfl

theorem except_bind_err {ε α β : Type} (e : ε) (f : α → Except ε β) :
    (Except.error e >>= f : Except ε β) = Except.error e := rfl

theorem getOr_eq_ok {α : Type} (l : List α) (i : Nat) (h : i < l.length) :
    getOr l i = .ok l[i] := by
  simp [getOr, List.getElem?_eq_getElem h]

theorem computeSlicesAux_length (t : Nat) (ds : List Nat) :
    (computeSlicesAux t ds).length = ds.length := by
  induction ds generalizing t with
  | nil => rfl
  | cons d ds ih => simp [computeSlicesAux, ih]

theorem computeSlicesAux_get (t : Nat) (ds : List Nat) (i d : Nat)
    (h : ds[i]? = some d) :
    (computeSlicesAux t ds)[i]? =
      some (t + (ds.take i).sum, t + (ds.take i).sum + d) := by
  induction ds generalizing t i with
  | nil => simp at h
  | cons d0 ds ih =>
    cases i with
    | zero =>
      simp at h
      subst h
      simp [computeSlicesAux]
    | succ n =>
      simp only [List.getElem?_cons_succ] at h
      have hrec := ih (t + d0) n h
      simp only [computeSlicesAux, List.getElem?_cons_succ, hrec, List.take_succ_cons,
        List.sum_cons, Option.some.injEq, Prod.mk.injEq]
      omega

theorem pyListIndex_ok_lt (ids : List (Option ℤ)) (sid : Option ℤ) (i : Nat)
    (h : pyListIndex ids sid = .ok i) : i < ids.length := by
  induction ids generalizing i with
  | nil => simp [pyListIndex] at h
  | cons x xs ih =>
    simp only [pyListIndex] at h
    by_cases hx : x = sid
    · rw [if_pos hx] at h
      simp only [Except.ok.injEq] at h
      simp
      omega
    · rw [if_neg hx] at h
      cases he : pyListIndex xs sid with
      | error e => rw [he] at h; simp [Except.map] at h
      | ok j =>
        rw [he] at h
        simp only [Except.map, Except.ok.injEq] at h
        have hj := ih j he
        simp
        omega

theorem pyListIndex_absent (ids : List (Option ℤ)) (sid : Option ℤ)
    (h : ∀ x ∈ ids, x ≠ sid) : pyListIndex ids sid = .error .valueError := by
  induction ids with
  | nil => rfl
  | cons x xs ih =>
    have hx : x ≠ sid := h x (by simp)
    simp [pyListIndex, hx, ih (fun y hy => h y (by simp [hy])), Except.map]

theorem pyListIndex_first (ids : List (Option ℤ)) (sid : Option ℤ) (i : Nat)
    (hi : i < ids.length) (hm : ids[i] = sid)
    (hf : ∀ j (hj : j < ids.length), j < i → ids[j] ≠ sid) :
    pyListIndex ids sid = .ok i := by
  induction ids generalizing i with
  | nil => simp at hi
  | cons x xs ih =>
    cases i with
    | zero =>
      simp at hm
      simp [pyListIndex, hm]
    | succ n =>
      have hx : x ≠ sid := by
        have h0 := hf 0 (by simp) (by omega)
        simpa using h0
      have hn : n < xs.length := by simpa using hi
      have hm2 : xs[n] = sid := by simpa using hm
      have hf2 : ∀ j (hj : j < xs.length), j < n → xs[j] ≠ sid := by
        intro j hj hjn
        have hj1 := hf (j + 1) (by simp; omega) (by omega)
        simpa using hj1
      simp [pyListIndex, hx, ih n hn hm2 hf2, Except.map]

/-! ### Claim theorems -/

/-- **C1.** The claim states that `jacobian_from_blocks` returns the given
blocks scattered into a zero-initialized `m`-by-`dof` Jacobian.  In
Python 3 its first statement, `block_dict.values()[0]`, subscripts a
`dict_values` view, which raises `TypeError`, so the method never
returns a matrix: the code contradicts its own docstring.  Here the
embedded method is evaluated at a concrete well-formed input (one
sub-state of dof 1, one 1-by-1 block addressed to it). -/
theorem C1_jacobian_from_blocks_raises_typeerror :
    CompositeState.jacobian_from_blocks (B := QBackend)
      ⟨[PyState.vec ⟨[0], none, some 0⟩], none, none⟩
      [(some 0, Mat.identity 1)] = .error .typeError := rfl

/-- **C5.** The slice table built at construction partitions `[0, dof)`
in sub-state list order with no gap and no overlap: it has one slice per
sub-state, the `i`-th slice starts at the sum of the preceding dofs and
spans exactly the `i`-th sub-state's dof, and the composite `dof` equals
the sum of the sub-state dofs. -/
theorem C5_slice_table_partitions (B : Backend) (c : CompositeState B) (i : Nat)
    (h : i < c.value.length) :
    c.slices.length = c.value.length ∧
    c.slices[i]? = some (((c.value.map PyState.dof).take i).sum,
      ((c.value.map PyState.dof).take i).sum + (c.value[i]).dof) ∧
    c.dof = (c.value.map PyState.dof).sum := by
  refine ⟨?_, ?_, rfl⟩
  · simp [CompositeState.slices, computeSlices, computeSlicesAux_length]
  · have hm : (c.value.map PyState.dof)[i]? = some ((c.value[i]).dof) := by
      simp [List.getElem?_map, List.getElem?_eq_getElem h]
    have hs := computeSlicesAux_get 0 (c.value.map PyState.dof) i _ hm
    simpa [CompositeState.slices, computeSlices] using hs

/-- Witness for C5: the concrete three-sub-state composite, at `i = 1`. -/
theorem C5_witness :
    sampleComposite.slices.length = sampleComposite.value.length ∧
    sampleComposite.slices[1]? =
      some (((sampleComposite.value.map PyState.dof).take 1).sum,
        ((sampleComposite.value.map PyState.dof).take 1).sum +
          (sampleComposite.value[1]).dof) ∧
    sampleComposite.dof = (sampleComposite.value.map PyState.dof).sum :=
  C5_slice_table_partitions QBackend sampleComposite 1 (by decide)

/-- **C9.** For every composite state and every `state_id` that resolves
to an index, `get_dof_by_id` and `get_stamp_by_id` never return a value:
after resolving the index they subscript the resolved sub-state's scalar
`dof` (`self.value[idx].dof[idx]`) and scalar `stamp`
(`self.value[idx].stamp[idx]`), which raises `TypeError`. -/
theorem C9_get_dof_stamp_by_id_always_raise (B : Backend) (c : CompositeState B)
    (sid : Option ℤ) (i : Nat) (h : c.get_index_by_id sid = .ok i) :
    c.get_dof_by_id sid = .error .typeError ∧
      c.get_stamp_by_id sid = .error .typeError := by
  have hlen : i < c.value.length := by
    have hl := pyListIndex_ok_lt _ _ _ h
    simpa using hl
  constructor
  · unfold CompositeState.get_dof_by_id
    rw [h, except_bind_ok, getOr_eq_ok c.value i hlen, except_bind_ok]
    rfl
  · unfold CompositeState.get_stamp_by_id
    rw [h, except_bind_ok, getOr_eq_ok c.value i hlen, except_bind_ok]
    rfl

/-- Witness for C9: the concrete composite, identifier `2` (present at
index 2). -/
theorem C9_witness :
    sampleComposite.get_dof_by_id (some 2) = .error .typeError ∧
      sampleComposite.get_stamp_by_id (some 2) = .error .typeError :=
  C9_get_dof_stamp_by_id_always_raise QBackend sampleComposite (some 2) 2 rfl

theorem except_pure_eq_ok {ε α : Type} (a : α) : (pure a : Except ε α) = .ok a := rfl

theorem zipWith_add_sub (a b : List ℚ) (h : a.length = b.length) :
    List.zipWith (fun x y => x + y) b (List.zipWith (fun x y => x - y) a b) = a := by
  induction a generalizing b with
  | nil => cases b with | nil => rfl | cons y ys => simp at h
  | cons x xs ih =>
    cases b with
    | nil => simp at h
    | cons y ys =>
      simp only [List.zipWith_cons_cons, List.cons.injEq]
      exact ⟨by ring, ih ys (by simpa using h)⟩

theorem zipWith_sub_add (s d : List ℚ) (h : s.length = d.length) :
    List.zipWith (fun x y => x - y) (List.zipWith (fun x y => x + y) s d) s = d := by
  induction s generalizing d with
  | nil => cases d with | nil => rfl | cons y ys => simp at h
  | cons x xs ih =>
    cases d with
    | nil => simp at h
    | cons y ys =>
      simp only [List.zipWith_cons_cons, List.cons.injEq]
      exact ⟨by ring, ih ys (by simpa using h)⟩

theorem zipWith_sub_self (a : List ℚ) :
    List.zipWith (fun x y => x - y) a a = List.replicate a.length 0 := by
  induction a with
  | nil => rfl
  | cons x xs ih => simp [List.replicate, ih]

/-- **C6.** Identifier lookups on a composite state: when no sub-state
carries the queried `state_id`, `get_index_by_id`, `get_slice_by_id` and
`get_state_by_id` all fail with the addressing error (`list.index`
raises `ValueError`); when one or more sub-states carry it, each returns
the result for the first match in list order.  The lookups are pure
functions of the composite state — the embedded methods take the state
and return only the lookup result, so the state is unchanged. -/
theorem C6_lookup_by_id (B : Backend) (c : CompositeState B) (sid : Option ℤ) :
    ((∀ s ∈ c.value, PyState.state_id s ≠ sid) →
      c.get_index_by_id sid = .error .valueError ∧
      c.get_slice_by_id sid = .error .valueError ∧
      c.get_state_by_id sid = .error .valueError) ∧
    (∀ i (hi : i < c.value.length), (c.value[i]).state_id = sid →
      (∀ j (hj : j < c.value.length), j < i → (c.value[j]).state_id ≠ sid) →
      c.get_index_by_id sid = .ok i ∧
      (∀ s, c.slices[i]? = some s → c.get_slice_by_id sid = .ok s) ∧
      c.get_state_by_id sid = .ok (c.value[i])) := by
  constructor
  · intro habs
    have hidx : pyListIndex (c.value.map PyState.state_id) sid = .error .valueError := by
      apply pyListIndex_absent
      intro x hx
      simp only [List.mem_map] at hx
      obtain ⟨s, hs, rfl⟩ := hx
      exact habs s hs
    refine ⟨hidx, ?_, ?_⟩
    · unfold CompositeState.get_slice_by_id
      rw [show c.get_index_by_id sid = .error .valueError from hidx, except_bind_err]
    · unfold CompositeState.get_state_by_id
      rw [show c.get_index_by_id sid = .error .valueError from hidx, except_bind_err]
  · intro i hi hm hf
    have hilen : i < (c.value.map PyState.state_id).length := by simpa using hi
    have hidx : pyListIndex (c.value.map PyState.state_id) sid = .ok i := by
      apply pyListIndex_first _ _ _ hilen
      · simpa using hm
      · intro j hj hji
        have hj2 : j < c.value.length := by simpa using hj
        have := hf j hj2 hji
        simpa using this
    refine ⟨hidx, ?_, ?_⟩
    · intro s hs
      unfold CompositeState.get_slice_by_id
      rw [show c.get_index_by_id sid = .ok i from hidx, except_bind_ok]
      simp [getOr, hs]
    · unfold CompositeState.get_state_by_id
      rw [show c.get_index_by_id sid = .ok i from hidx, except_bind_ok,
        getOr_eq_ok c.value i hi]

/-- Witness for C6: on the concrete composite, identifier `99` is absent
(all three lookups report the addressing error) and identifier `1` is
present at index 1 (all three lookups return that sub-state's data). -/
theorem C6_witness :
    (sampleComposite.get_index_by_id (some 99) = .error .valueError ∧
     sampleComposite.get_slice_by_id (some 99) = .error .valueError ∧
     sampleComposite.get_state_by_id (some 99) = .error .valueError) ∧
    (sampleComposite.get_index_by_id (some 1) = .ok 1 ∧
     sampleComposite.get_slice_by_id (some 1) = .ok (2, 3) ∧
     sampleComposite.get_state_by_id (some 1) =
       .ok (PyState.lie ⟨(4 : ℚ), "right", none, some 1⟩)) := by
  constructor
  · exact (C6_lookup_by_id QBackend sampleComposite (some 99)).1 (by decide)
  · have h := (C6_lookup_by_id QBackend sampleComposite (some 1)).2 1 (by decide)
      (by decide) (by decide)
    exact ⟨h.1, h.2.1 (2, 3) rfl, h.2.2⟩

theorem except_bind_ok2 {ε α β : Type} (a : α) (f : α → Except ε β) :
    (Except.ok a : Except ε α).bind f = f a := rfl

/-- `QBackend` satisfies the group/exponential-map axioms. -/
theorem lawfulQBackend : QBackend.Lawful := by
  refine ⟨?_, ?_, ?_, ?_, ?_, ?_, ?_, ?_⟩
  · intro a b c
    exact @add_assoc ℚ _ a b c
  · intro a
    exact @zero_add ℚ _ a
  · intro a
    exact @add_zero ℚ _ a
  · intro a
    exact @neg_add_cancel ℚ _ a
  · intro a
    exact @add_neg_cancel ℚ _ a
  · intro g
    rfl
  · intro v hv
    cases v with
    | nil => simp [QBackend] at hv
    | cons a t =>
      cases t with
      | nil => rfl
      | cons b t2 => simp [QBackend] at hv
  · rfl

/-- **C3.** `minus` is a left inverse of `plus` for every state variant:
for `VectorState` and for `MatrixLieGroupState` in both the right and
the left direction, `plus(y, minus(x, y))` recovers `x`'s value (exactly,
given the exponential-map/group axioms `Exp(Log g) = g`, associativity
and the inverse laws), and `minus(x, x)` is the zero tangent vector. -/
theorem C3_minus_left_inverse_of_plus (B : Backend) (hB : B.Lawful) :
    (∀ a b : VectorState, a.value.length = b.value.length →
       Except.bind (a.minus b) b.plus = .ok { b with value := a.value }) ∧
    (∀ a : VectorState, a.minus a = .ok (List.replicate a.value.length 0)) ∧
    (∀ x y : MatrixLieGroupState B, y.direction = x.direction →
       x.direction = "right" ∨ x.direction = "left" →
       ∃ z, Except.bind (x.minus y) y.plus = .ok z ∧ z.value = x.value) ∧
    (∀ x : MatrixLieGroupState B, x.direction = "right" ∨ x.direction = "left" →
       x.minus x = .ok (List.replicate B.dof 0)) := by
  refine ⟨?_, ?_, ?_, ?_⟩
  · intro a b h
    have hm : a.minus b = .ok (List.zipWith (fun x y => x - y) a.value b.value) := by
      unfold VectorState.minus npSub1d
      rw [if_pos h]
    rw [hm, except_bind_ok2]
    have hadd : npAdd1d b.value (List.zipWith (fun x y => x - y) a.value b.value) =
        .ok a.value := by
      unfold npAdd1d
      rw [if_pos (by simp [h]), zipWith_add_sub a.value b.value h]
    unfold VectorState.plus
    rw [hadd, except_bind_ok, except_pure_eq_ok]
  · intro a
    unfold VectorState.minus npSub1d
    rw [if_pos rfl, zipWith_sub_self]
  · intro x y hyx hx
    have hym : y.direction = x.direction := hyx
    cases hx with
    | inl hr =>
      have hm : x.minus y = .ok (B.Log (B.mul (B.inv y.value) x.value)) := by
        unfold MatrixLieGroupState.minus
        rw [hr, if_pos rfl]
      refine ⟨{ y with value := B.mul y.value (B.Exp (B.Log (B.mul (B.inv y.value) x.value))) }, ?_, ?_⟩
      · rw [hm, except_bind_ok2]
        unfold MatrixLieGroupState.plus
        rw [hym, hr, if_pos rfl]
      · show B.mul y.value (B.Exp (B.Log (B.mul (B.inv y.value) x.value))) = x.value
        rw [hB.exp_log, ← hB.mul_assoc, hB.mul_inv, hB.one_mul]
    | inr hl =>
      have hm : x.minus y = .ok (B.Log (B.mul x.value (B.inv y.value))) := by
        unfold MatrixLieGroupState.minus
        rw [hl, if_neg (by decide), if_pos rfl]
      refine ⟨{ y with value := B.mul (B.Exp (B.Log (B.mul x.value (B.inv y.value)))) y.value }, ?_, ?_⟩
      · rw [hm, except_bind_ok2]
        unfold MatrixLieGroupState.plus
        rw [hym, hl, if_neg (by decide), if_pos rfl]
      · show B.mul (B.Exp (B.Log (B.mul x.value (B.inv y.value)))) y.value = x.value
        rw [hB.exp_log, hB.mul_assoc, hB.inv_mul, hB.mul_one]
  · intro x hx
    cases hx with
    | inl hr =>
      unfold MatrixLieGroupState.minus
      rw [hr, if_pos rfl, hB.inv_mul, hB.log_one]
    | inr hl =>
      unfold MatrixLieGroupState.minus
      rw [hl, if_neg (by decide), if_pos rfl, hB.mul_inv, hB.log_one]

/-- Witness for C3: a vector round-trip, a right- and a left-direction
Lie-group round-trip over the concrete backend, and a zero `minus(x, x)`. -/
theorem C3_witness :
    (Except.bind (VectorState.minus ⟨[3, 7], none, none⟩ ⟨[1, 2], none, some 5⟩)
       (VectorState.plus ⟨[1, 2], none, some 5⟩) = .ok ⟨[3, 7], none, some 5⟩) ∧
    (∃ z : MatrixLieGroupState QBackend,
       Except.bind (MatrixLieGroupState.minus (B := QBackend) ⟨(9 : ℚ), "right", none, none⟩ ⟨(4 : ℚ), "right", none, none⟩)
         (MatrixLieGroupState.plus (B := QBackend) ⟨(4 : ℚ), "right", none, none⟩) = .ok z ∧ z.value = (9 : ℚ)) ∧
    (∃ z : MatrixLieGroupState QBackend,
       Except.bind (MatrixLieGroupState.minus (B := QBackend) ⟨(9 : ℚ), "left", none, none⟩ ⟨(4 : ℚ), "left", none, none⟩)
         (MatrixLieGroupState.plus (B := QBackend) ⟨(4 : ℚ), "left", none, none⟩) = .ok z ∧ z.value = (9 : ℚ)) ∧
    MatrixLieGroupState.minus (B := QBackend) ⟨(6 : ℚ), "left", none, none⟩ ⟨(6 : ℚ), "left", none, none⟩
      = .ok (List.replicate QBackend.dof 0) := by
  refine ⟨?_, ?_, ?_, ?_⟩
  · exact (C3_minus_left_inverse_of_plus QBackend lawfulQBackend).1
      ⟨[3, 7], none, none⟩ ⟨[1, 2], none, some 5⟩ rfl
  · exact (C3_minus_left_inverse_of_plus QBackend lawfulQBackend).2.2.1
      ⟨(9 : ℚ), "right", none, none⟩ ⟨(4 : ℚ), "right", none, none⟩ rfl (Or.inl rfl)
  · exact (C3_minus_left_inverse_of_plus QBackend lawfulQBackend).2.2.1
      ⟨(9 : ℚ), "left", none, none⟩ ⟨(4 : ℚ), "left", none, none⟩ rfl (Or.inr rfl)
  · exact (C3_minus_left_inverse_of_plus QBackend lawfulQBackend).2.2.2
      ⟨(6 : ℚ), "left", none, none⟩ (Or.inr rfl)

/-- One sub-state round-trip: `plus` with a tangent block of the right
length succeeds, and `minus` against the original recovers the block. -/
theorem plus_minus_block {B : Backend} (hB : B.Lawful) (v : PyState B)
    (d : List ℚ) (hd : d.length = v.dof) (hdir : dirOK v) :
    ∃ v2, v.plus d = .ok v2 ∧ v2.minus v = .ok d := by
  cases v with
  | vec s =>
    have hds : s.value.length = d.length := by simpa [PyState.dof] using hd.symm
    refine ⟨.vec { s with value := List.zipWith (fun x y => x + y) s.value d }, ?_, ?_⟩
    · show (VectorState.plus s d).map PyState.vec = _
      unfold VectorState.plus npAdd1d
      rw [if_pos hds]
      rfl
    · show VectorState.minus { s with value := List.zipWith (fun x y => x + y) s.value d } s
        = .ok d
      unfold VectorState.minus npSub1d
      rw [if_pos (by simp [hds])]
      rw [zipWith_sub_add s.value d hds]
  | lie s =>
    have hdB : d.length = B.dof := by simpa [PyState.dof] using hd
    rcases hdir with hr | hl
    · refine ⟨.lie { s with value := B.mul s.value (B.Exp d) }, ?_, ?_⟩
      · show (MatrixLieGroupState.plus s d).map PyState.lie = _
        unfold MatrixLieGroupState.plus
        rw [hr, if_pos rfl]
        rfl
      · show MatrixLieGroupState.minus { s with value := B.mul s.value (B.Exp d) } s = .ok d
        unfold MatrixLieGroupState.minus
        rw [if_pos (show ({ s with value := B.mul s.value (B.Exp d) } :
              MatrixLieGroupState B).direction = "right" from hr)]
        rw [show ({ s with value := B.mul s.value (B.Exp d) } :
              MatrixLieGroupState B).value = B.mul s.value (B.Exp d) from rfl]
        rw [← hB.mul_assoc, hB.inv_mul, hB.one_mul, hB.log_exp d hdB]
    · refine ⟨.lie { s with value := B.mul (B.Exp d) s.value }, ?_, ?_⟩
      · show (MatrixLieGroupState.plus s d).map PyState.lie = _
        unfold MatrixLieGroupState.plus
        rw [hl, if_neg (by decide), if_pos rfl]
        rfl
      · show MatrixLieGroupState.minus { s with value := B.mul (B.Exp d) s.value } s = .ok d
        unfold MatrixLieGroupState.minus
        rw [if_neg (show ¬ ({ s with value := B.mul (B.Exp d) s.value } :
              MatrixLieGroupState B).direction = "right" by rw [show ({ s with value := B.mul (B.Exp d) s.value } : MatrixLieGroupState B).direction = "left" from hl]; decide)]
        rw [if_pos (show ({ s with value := B.mul (B.Exp d) s.value } :
              MatrixLieGroupState B).direction = "left" from hl)]
        rw [show ({ s with value := B.mul (B.Exp d) s.value } :
              MatrixLieGroupState B).value = B.mul (B.Exp d) s.value from rfl]
        rw [hB.mul_assoc, hB.mul_inv, hB.mul_one, hB.log_exp d hdB]

/-- The composite `plus` loop followed by the `minus` loop recovers the
tail of `dx` past the starting counter `t`, block by block. -/
theorem loop_roundtrip {B : Backend} (hB : B.Lawful) :
    ∀ (vals : List (PyState B)) (t : Nat) (dx : List ℚ),
      (∀ s ∈ vals, dirOK s) →
      dx.length = t + (vals.map PyState.dof).sum →
      ∃ vals2, plusLoop vals (computeSlicesAux t (vals.map PyState.dof)) dx = .ok vals2 ∧
        ∃ blocks, minusLoop vals2 vals = .ok blocks ∧
          blocks.length = vals.length ∧ blocks.flatten = dx.drop t := by
  intro vals
  induction vals with
  | nil =>
    intro t dx hdir hlen
    refine ⟨[], rfl, [], rfl, rfl, ?_⟩
    have hle : dx.length ≤ t := by
      simp at hlen
      omega
    have h2 : dx.drop t = [] := List.drop_eq_nil_of_le hle
    simp [h2]
  | cons v vs ih =>
    intro t dx hdir hlen
    have hsum : dx.length = t + v.dof + (vs.map PyState.dof).sum := by
      simp at hlen
      omega
    have hdv : (listSlice dx t (t + v.dof)).length = v.dof := by
      simp [listSlice]
      omega
    obtain ⟨v2, hp, hm⟩ :=
      plus_minus_block hB v (listSlice dx t (t + v.dof)) hdv (hdir v (by simp))
    obtain ⟨vals2, hploop, blocks, hmloop, hblen, hflat⟩ :=
      ih (t + v.dof) dx (fun s hs => hdir s (by simp [hs])) (by omega)
    refine ⟨v2 :: vals2, ?_, (listSlice dx t (t + v.dof)) :: blocks, ?_, ?_, ?_⟩
    · simp only [List.map_cons, computeSlicesAux, plusLoop]
      rw [hp, except_bind_ok, hploop, except_bind_ok, except_pure_eq_ok]
    · simp only [minusLoop]
      rw [hm, except_bind_ok, hmloop, except_bind_ok, except_pure_eq_ok]
    · simp [hblen]
    · simp only [List.flatten_cons, hflat]
      have hs : listSlice dx t (t + v.dof) = (dx.drop t).take v.dof := by
        simp [listSlice]
      rw [hs]
      have hdd : dx.drop (t + v.dof) = (dx.drop t).drop v.dof := by
        rw [List.drop_drop]
      rw [hdd, List.take_append_drop]

/-- **C4 (amended).** For every composite state with at least one
sub-state (whose sub-states carry a valid perturbation direction) and
every tangent vector of length equal to the composite dof, the
round-trip holds: `plus(dx)` succeeds, and `minus` of the result against
the original composite returns exactly `dx`. -/
theorem C4_composite_roundtrip (B : Backend) (hB : B.Lawful)
    (c : CompositeState B) (hne : c.value ≠ [])
    (hdir : ∀ s ∈ c.value, dirOK s) (dx : List ℚ) (hlen : dx.length = c.dof) :
    ∃ y, c.plus dx none = .ok y ∧ y.minus c = .ok dx := by
  obtain ⟨vals2, hploop, blocks, hmloop, hblen, hflat⟩ :=
    loop_roundtrip hB c.value 0 dx hdir (by simpa [CompositeState.dof] using hlen)
  refine ⟨{ c with value := vals2 }, ?_, ?_⟩
  · unfold CompositeState.plus
    rw [show c.slices = computeSlicesAux 0 (c.value.map PyState.dof) from rfl]
    rw [hploop, except_bind_ok]
    rfl
  · unfold CompositeState.minus
    rw [show ({ c with value := vals2 } : CompositeState B).value = vals2 from rfl]
    rw [hmloop, except_bind_ok]
    cases blocks with
    | nil =>
      exfalso
      apply hne
      have h0 : c.value.length = 0 := by simpa using hblen.symm
      exact List.length_eq_zero.mp h0
    | cons bh bt =>
      rw [show npVstack (bh :: bt) = .ok ((bh :: bt).flatten) from rfl]
      rw [hflat]
      simp

/-- Counterexample to C4 as stated: the empty composite (`k = 0`).  Its
dof is 0, so `dx = []` has the right length and `plus` succeeds, but
`minus` calls `np.vstack` on an empty list, which raises `ValueError`
("need at least one array to concatenate") instead of returning the
empty tangent vector. -/
theorem C4_counterexample_empty_composite :
    (([] : List ℚ).length = CompositeState.dof (B := QBackend) ⟨[], none, none⟩) ∧
    CompositeState.plus (B := QBackend) ⟨[], none, none⟩ [] none = .ok ⟨[], none, none⟩ ∧
    CompositeState.minus (B := QBackend) ⟨[], none, none⟩ ⟨[], none, none⟩ =
      .error .valueError := ⟨rfl, rfl, rfl⟩

/-- Witness for C4 (amended): the concrete three-sub-state composite
(total dof 5) and the tangent vector `[1, 2, 3, 4, 5]`. -/
theorem C4_witness :
    ∃ y, sampleComposite.plus [1, 2, 3, 4, 5] none = .ok y ∧
      y.minus sampleComposite = .ok [1, 2, 3, 4, 5] :=
  C4_composite_roundtrip QBackend lawfulQBackend sampleComposite
    (List.cons_ne_nil _ _)
    (by
      intro s hs
      simp only [sampleComposite, List.mem_cons, List.not_mem_nil, or_false] at hs
      rcases hs with h | h | h <;> subst h <;> simp [dirOK])
    [1, 2, 3, 4, 5] rfl

/-- **C2.** For every composite state containing a sub-state with the
wrapped model's target identifier (first match at index `i`), and a
wrapped Jacobian whose width is that sub-state's dof,
`CompositeMeasurementModel.jacobian` returns a matrix of width the
composite dof whose columns inside the addressed sub-state's slice equal
the wrapped model's native Jacobian on that sub-state, and which is zero
at every column outside that slice. -/
theorem C2_composite_measurement_jacobian (B : Backend) (wjac : PyState B → Mat)
    (sid : Option ℤ) (x : CompositeState B) (i : Nat) (hi : i < x.value.length)
    (hfound : x.get_index_by_id sid = .ok i)
    (hw : (wjac x.value[i]).cols = (x.value[i]).dof) :
    ∃ J, CompositeMeasurementModel.jacobian wjac sid x = .ok J ∧
      J.rows = (wjac x.value[i]).rows ∧
      J.cols = x.dof ∧
      (∀ r j, ((x.value.map PyState.dof).take i).sum ≤ j →
        j < ((x.value.map PyState.dof).take i).sum + (x.value[i]).dof →
        J.entry r j =
          (wjac x.value[i]).entry r (j - ((x.value.map PyState.dof).take i).sum)) ∧
      (∀ r j, j < x.dof →
        (j < ((x.value.map PyState.dof).take i).sum ∨
         ((x.value.map PyState.dof).take i).sum + (x.value[i]).dof ≤ j) →
        J.entry r j = 0) := by
  have hstate : x.get_state_by_id sid = .ok x.value[i] := by
    unfold CompositeState.get_state_by_id
    rw [hfound, except_bind_ok, getOr_eq_ok x.value i hi]
  have hm : (x.value.map PyState.dof)[i]? = some ((x.value[i]).dof) := by
    simp [List.getElem?_eq_getElem hi]
  have hslice : x.get_slice_by_id sid =
      .ok (((x.value.map PyState.dof).take i).sum,
        ((x.value.map PyState.dof).take i).sum + (x.value[i]).dof) := by
    unfold CompositeState.get_slice_by_id
    rw [hfound, except_bind_ok]
    have hsl := computeSlicesAux_get 0 (x.value.map PyState.dof) i _ hm
    simp only [zero_add] at hsl
    simp [getOr, CompositeState.slices, computeSlices, hsl]
  unfold CompositeMeasurementModel.jacobian
  rw [hstate, except_bind_ok, hslice, except_bind_ok]
  rw [if_pos ⟨rfl, by rw [hw]; omega⟩, except_pure_eq_ok]
  refine ⟨_, rfl, rfl, rfl, ?_, ?_⟩
  · intro r j h1 h2
    show (if _ ∧ _ then _ else _) = _
    rw [if_pos ⟨h1, h2⟩]
  · intro r j hj hout
    show (if _ ∧ _ then _ else _) = _
    rw [if_neg (by omega)]
    rfl

/-- Witness for C2: the concrete composite of 3 sub-states (dofs 2, 1, 2)
targeting the middle one; the wrapped Jacobian is the constant 1-by-1
block `[9]`, and the result is `[0 0 9 0 0]`. -/
theorem C2_witness :
    ∃ J, CompositeMeasurementModel.jacobian (B := QBackend)
        (fun _ => ⟨1, 1, fun _ _ => 9⟩) (some 1) sampleComposite = .ok J ∧
      J.rows = 1 ∧
      J.cols = sampleComposite.dof ∧
      (∀ r j, 2 ≤ j → j < 3 → J.entry r j = 9) ∧
      (∀ r j, j < sampleComposite.dof → (j < 2 ∨ 3 ≤ j) → J.entry r j = 0) :=
  C2_composite_measurement_jacobian QBackend (fun _ => ⟨1, 1, fun _ _ => 9⟩)
    (some 1) sampleComposite 1 (by decide) rfl rfl

/-- **C7.** For every `MatrixLieGroupState` with direction `"left"`, the
Jacobian and covariance of `BodyFrameVelocity` and of
`RelativeBodyFrameVelocity` (the latter on a well-formed stacked input
of even length), and the Jacobian of `RangePoseToAnchor`, fail with
`NotImplementedError` and never return a numeric result. -/
theorem C7_left_direction_rejected (B : Backend) (x : MatrixLieGroupState B)
    (hx : x.direction = "left") (m1 : BodyFrameVelocity)
    (m2 : RelativeBodyFrameVelocity) (m3 : RangePoseToAnchor)
    (u : List ℚ) (dt : ℚ) :
    m1.jacobian B x u dt = .error .notImplementedError ∧
    m1.covariance B x u dt = .error .notImplementedError ∧
    (u.length % 2 = 0 →
      m2.jacobian B x u dt = .error .notImplementedError ∧
      m2.covariance B x u dt = .error .notImplementedError) ∧
    m3.jacobian B x = .error .notImplementedError := by
  have hne : ¬ x.direction = "right" := by rw [hx]; decide
  refine ⟨?_, ?_, ?_, ?_⟩
  · unfold BodyFrameVelocity.jacobian
    rw [if_neg hne]
  · unfold BodyFrameVelocity.covariance
    rw [if_neg hne]
  · intro heven
    have hph : pyRoundHalf u.length = u.length / 2 := by
      unfold pyRoundHalf
      rw [if_pos heven]
    have hr : reshapeTwoRows u = .ok (u.take (u.length / 2), u.drop (u.length / 2)) := by
      show (if 2 * pyRoundHalf u.length = u.length
          then (.ok (u.take (pyRoundHalf u.length), u.drop (pyRoundHalf u.length)) :
            Except PyErr (List ℚ × List ℚ))
          else .error .valueError) = _
      rw [hph, if_pos (by omega)]
    constructor
    · unfold RelativeBodyFrameVelocity.jacobian
      rw [hr, except_bind_ok, if_neg hne]
    · unfold RelativeBodyFrameVelocity.covariance
      rw [hr, except_bind_ok, if_neg hne]
  · unfold RangePoseToAnchor.jacobian
    rw [if_neg hne]

/-- Witness for C7: a concrete left-direction state over the concrete
backend, with a length-2 input. -/
theorem C7_witness :
    BodyFrameVelocity.jacobian ⟨Mat.identity 1⟩ QBackend
      ⟨(0 : ℚ), "left", none, none⟩ [1, 2] 1 = .error .notImplementedError ∧
    BodyFrameVelocity.covariance ⟨Mat.identity 1⟩ QBackend
      ⟨(0 : ℚ), "left", none, none⟩ [1, 2] 1 = .error .notImplementedError ∧
    (RelativeBodyFrameVelocity.jacobian ⟨Mat.identity 1, Mat.identity 1⟩ QBackend
        ⟨(0 : ℚ), "left", none, none⟩ [1, 2] 1 = .error .notImplementedError ∧
      RelativeBodyFrameVelocity.covariance ⟨Mat.identity 1, Mat.identity 1⟩ QBackend
        ⟨(0 : ℚ), "left", none, none⟩ [1, 2] 1 = .error .notImplementedError) ∧
    RangePoseToAnchor.jacobian ⟨[0], [0], 1⟩ QBackend ⟨(0 : ℚ), "left", none, none⟩
      = .error .notImplementedError := by
  have h := C7_left_direction_rejected QBackend ⟨(0 : ℚ), "left", none, none⟩ rfl
    ⟨Mat.identity 1⟩ ⟨Mat.identity 1, Mat.identity 1⟩ ⟨[0], [0], 1⟩ [1, 2] 1
  exact ⟨h.1, h.2.1, h.2.2.1 rfl, h.2.2.2⟩

/-- **C8.** `SingleIntegrator`: `evaluate` sets the state to
`x + dt * u` and returns it, `jacobian` is the identity of dimension
`Q.shape[0]`, and `covariance` is `dt² * Q`; in particular, with
`Q = I₂`, `x = [0, 0]`, `u = [1, 0]`, `dt = 1/2`, `evaluate` yields
`[1/2, 0]`, `jacobian` is the 2-by-2 identity, and `covariance` is
`(1/4) * I₂`. -/
theorem C8_single_integrator (m : SingleIntegrator) (x : VectorState)
    (u : List ℚ) (dt : ℚ) (hlen : x.value.length = u.length) :
    m.evaluate x u dt =
      .ok { x with value := List.zipWith (fun a b => a + dt * b) x.value u } ∧
    m.jacobian x u dt = Mat.identity m.Q.rows ∧
    m.covariance x u dt = Mat.smul (dt ^ 2) m.Q ∧
    (SingleIntegrator.evaluate ⟨Mat.identity 2⟩ ⟨[0, 0], none, none⟩ [1, 0] (1/2)
       = .ok ⟨[1/2, 0], none, none⟩ ∧
     Mat.Eq (SingleIntegrator.jacobian ⟨Mat.identity 2⟩ ⟨[0, 0], none, none⟩ [1, 0] (1/2))
       (Mat.identity 2) ∧
     Mat.Eq (SingleIntegrator.covariance ⟨Mat.identity 2⟩ ⟨[0, 0], none, none⟩ [1, 0] (1/2))
       (Mat.smul (1/4) (Mat.identity 2))) := by
  refine ⟨?_, rfl, rfl, ?_, ⟨rfl, rfl, fun i hi j hj => rfl⟩, ?_⟩
  · have hadd : npAdd1d x.value (u.map (fun a => dt * a)) =
        .ok (List.zipWith (fun a b => a + dt * b) x.value u) := by
      unfold npAdd1d
      rw [if_pos (by simp [hlen]), List.zipWith_map_right]
    unfold SingleIntegrator.evaluate
    rw [hadd, except_bind_ok, except_pure_eq_ok]
  · norm_num [SingleIntegrator.evaluate, npAdd1d, except_bind_ok, except_pure_eq_ok]
  · refine ⟨rfl, rfl, ?_⟩
    intro i hi j hj
    show (1 / 2 : ℚ) ^ 2 * (Mat.identity 2).entry i j = 1 / 4 * (Mat.identity 2).entry i j
    norm_num

/-- Witness for C8: the concrete scenario itself, extracted by applying
the theorem at `Q = I₂`, `x = [0, 0]`, `u = [1, 0]`, `dt = 1/2`. -/
theorem C8_witness :
    SingleIntegrator.evaluate ⟨Mat.identity 2⟩ ⟨[0, 0], none, none⟩ [1, 0] (1/2)
      = .ok ⟨[1/2, 0], none, none⟩ :=
  (C8_single_integrator ⟨Mat.identity 2⟩ ⟨[0, 0], none, none⟩ [1, 0] (1/2) rfl).2.2.2.1

/-- **C10.** `BodyFrameVelocity.evaluate` is direction-independent: for
every `MatrixLieGroupState`, including one with direction `"left"`, it
succeeds, updates the state to `value ∘ Exp(u·dt)` (right
multiplication) keeping direction, stamp and identifier, and returns the
mutated state; only `jacobian` and `covariance` reject the left
direction. -/
theorem C10_evaluate_ignores_direction (B : Backend) (m : BodyFrameVelocity)
    (x : MatrixLieGroupState B) (u : List ℚ) (dt : ℚ) (hx : x.direction = "left") :
    m.evaluate B x u dt =
      ⟨B.mul x.value (B.Exp (u.map (fun a => a * dt))), x.direction, x.stamp, x.state_id⟩ ∧
    (m.evaluate B x u dt).direction = "left" ∧
    m.jacobian B x u dt = .error .notImplementedError ∧
    m.covariance B x u dt = .error .notImplementedError := by
  have hne : ¬ x.direction = "right" := by rw [hx]; decide
  refine ⟨rfl, ?_, ?_, ?_⟩
  · show x.direction = "left"
    exact hx
  · unfold BodyFrameVelocity.jacobian
    rw [if_neg hne]
  · unfold BodyFrameVelocity.covariance
    rw [if_neg hne]

/-- Witness for C10: over the concrete backend, `evaluate` on a
left-direction state succeeds (`2 ∘ Exp([3]) = 5`), while `jacobian`
rejects it. -/
theorem C10_witness :
    BodyFrameVelocity.evaluate ⟨Mat.identity 1⟩ QBackend
      ⟨(2 : ℚ), "left", none, none⟩ [3] 1 = ⟨(5 : ℚ), "left", none, none⟩ ∧
    BodyFrameVelocity.jacobian ⟨Mat.identity 1⟩ QBackend
      ⟨(2 : ℚ), "left", none, none⟩ [3] 1 = .error .notImplementedError := by
  have h := C10_evaluate_ignores_direction QBackend ⟨Mat.identity 1⟩
    ⟨(2 : ℚ), "left", none, none⟩ [3] 1 rfl
  refine ⟨?_, h.2.2.1⟩
  rw [h.1]
  norm_num [MatrixLieGroupState.mk.injEq]
  show (2 + 3 : ℚ) = 5
  norm_num
